import Mathlib

/-!
Verification of the xv6-style VFS core (kernel/fs) against its
natural-language specification.

The definitions below are a shallow embedding of the C sources:

* `xv6fs_readi`, `xv6fs_writei` embed the byte read/write loops of
  `src/kernel/fs/xv6fs/defs.h` (`xv6fs_readi`, `xv6fs_writei`).  The
  block mapper `bmap` and the user/kernel copy primitives are external
  collaborators there, so they enter the model as oracles: `bmapA`
  maps a file-block index to a disk address (0 = allocation failure,
  exactly the value `bmap` returns on exhaustion) and `copyOk` tells
  whether the copy primitive succeeds for the window starting at a
  given absolute file offset (each loop iteration uses a distinct
  offset, so the offset identifies the call).  Machine integers
  (`uint`) are embedded as `Nat` with explicit `% U32` where the C
  expression can wrap.
* `iput` embeds `iput` of `src/kernel/fs/fs.c`; the vtable operations
  it invokes (`trunc`, `write_inode`, `free_inode`, `release_inode`)
  are recorded as an event trace.  The xv6fs implementations of those
  operations do not modify `ref` or `nlink` of the in-memory inode, so
  the trace-only embedding is faithful for the fields the claims
  mention.
* `fileread` embeds `fileread` of `src/kernel/fs/file.c` with the
  device switch and the inode vtable read as oracles.
* `iget`, `xv6fs_geti`, `xv6fs_update_lock` embed the inode-table
  functions; the table is a list of slots.  The `disk` argument is the
  on-disk inode array; `iget` receives it (it is in scope in the C
  file) and never consults it.
* `sys_link` embeds the control flow of `sys_link` in
  `src/kernel/fs/sysfile.c`, with the path resolutions and the vtable
  link operation as oracle outcomes, tracking the target inode's
  `nlink` and the trace of mutations.
* `skipelem`, `namex`, `namei` embed the path resolver of
  `src/kernel/fs/fs.c`.
* `xv6fs_unlink` and `strncmp` embed the directory-entry removal of
  `src/kernel/fs/xv6fs/defs.h`.

Constants are the on-disk layout constants of the repository
(`BSIZE`, `DIRSIZ`, `NDIRECT`, `NINDIRECT`, `MAXFILE`, `ROOTDEV`,
`ROOTINO`) and the inode/file type tags (`T_DIR`, `T_FILE`,
`T_DEVICE`, `FD_DEVICE`, `CONSOLE`); the numeric values of the type
tags and `CONSOLE` are modelled from the spec (their header,
`stat.h` / `xv6fs/file.h` / `param.h`, is not among the staged
sources; the values are the classic xv6 ones the spec describes).
-/

/-! ## Constants -/

def BSIZE : Nat := 512

def DIRSIZ : Nat := 14

def NDIRECT : Nat := 12

def NINDIRECT : Nat := BSIZE / 4

def MAXFILE : Nat := NDIRECT + NINDIRECT

def ROOTDEV : Nat := 1

def ROOTINO : Nat := 1

/-- One past the largest `uint` value; `% U32` is 32-bit wraparound. -/
def U32 : Nat := 4294967296

/-- Modelled from the spec: inode type tag for directories (`stat.h`). -/
def T_DIR : Int := 1

/-- Modelled from the spec: inode type tag for regular files (`stat.h`). -/
def T_FILE : Int := 2

/-- Modelled from the spec: inode type tag for devices (`stat.h`). -/
def T_DEVICE : Int := 3

/-- Modelled from the spec: file-type discriminator for device files
(`xv6fs/file.h`, enum slot 3); numerically equal to `T_DEVICE`. -/
def FD_DEVICE : Int := 3

/-- Modelled from the spec: the console's major device number (`param.h`). -/
def CONSOLE : Nat := 1

/-! ## C1: `xv6fs_readi` (src/kernel/fs/xv6fs/defs.h lines 509-536)

The for-loop of `xv6fs_readi`: `tot` bytes delivered so far, `off`
the absolute file offset (the C loop advances `off` and `dst`
together with `tot`; the destination pointer plays no role in the
return value and is dropped).  `n` is the byte count after clamping.
On copy failure the C code sets `tot = -1` (as `uint`) and returns
`tot` as `int`, i.e. returns -1. -/

def readiLoop (bmapA : Nat → Nat) (copyOk : Nat → Bool) (n tot off : Nat) : Int :=
  if tot < n then
    if bmapA (off / BSIZE) = 0 then (tot : Int)
    else
      let m := min (n - tot) (BSIZE - off % BSIZE)
      if copyOk off then readiLoop bmapA copyOk n (tot + m) (off + m)
      else -1
  else (tot : Int)
termination_by n - tot
decreasing_by
  have hm : 0 < min (n - tot) (BSIZE - off % BSIZE) := by
    have h1 : off % BSIZE < BSIZE := Nat.mod_lt _ (by decide)
    omega
  omega

/-- Specification companion of `readiLoop`: does some iteration of the
run starting at `(tot, off)` hit a copy failure? -/
def readiCopyFailed (bmapA : Nat → Nat) (copyOk : Nat → Bool) (n tot off : Nat) : Bool :=
  if tot < n then
    if bmapA (off / BSIZE) = 0 then false
    else
      let m := min (n - tot) (BSIZE - off % BSIZE)
      if copyOk off then readiCopyFailed bmapA copyOk n (tot + m) (off + m)
      else true
  else false
termination_by n - tot
decreasing_by
  have hm : 0 < min (n - tot) (BSIZE - off % BSIZE) := by
    have h1 : off % BSIZE < BSIZE := Nat.mod_lt _ (by decide)
    omega
  omega

/-- Specification companion of `readiLoop`: the number of bytes the
run actually delivers to the destination (it stops counting at a
`bmap` failure or a copy failure). -/
def readiCopied (bmapA : Nat → Nat) (copyOk : Nat → Bool) (n tot off : Nat) : Nat :=
  if tot < n then
    if bmapA (off / BSIZE) = 0 then tot
    else
      let m := min (n - tot) (BSIZE - off % BSIZE)
      if copyOk off then readiCopied bmapA copyOk n (tot + m) (off + m)
      else tot
  else tot
termination_by n - tot
decreasing_by
  have hm : 0 < min (n - tot) (BSIZE - off % BSIZE) := by
    have h1 : off % BSIZE < BSIZE := Nat.mod_lt _ (by decide)
    omega
  omega

/-- `xv6fs_readi` of src/kernel/fs/xv6fs/defs.h: `size` is
`ino->size`, `off` and `n` the request; arithmetic on `uint` wraps
at `U32` (`off + n < off` is the C overflow test). -/
def xv6fs_readi (size : Nat) (bmapA : Nat → Nat) (copyOk : Nat → Bool) (off n : Nat) : Int :=
  if off > size ∨ (off + n) % U32 < off then 0
  else
    let n2 := if off + n > size then size - off else n
    readiLoop bmapA copyOk n2 0 off

/-! ## C2: `xv6fs_writei` (src/kernel/fs/xv6fs/defs.h lines 545-579) -/

/-- The for-loop of `xv6fs_writei`: returns the final `tot` and the
number of `bwrite` calls issued.  As in the C code, the loop breaks
when `bmap` returns 0 or the copy-in fails; a block is written
exactly once per successful copy. -/
def writeiLoop (bmapA : Nat → Nat) (copyOk : Nat → Bool) (n tot off blocks : Nat) : Nat × Nat :=
  if tot < n then
    if bmapA (off / BSIZE) = 0 then (tot, blocks)
    else
      let m := min (n - tot) (BSIZE - off % BSIZE)
      if copyOk off then writeiLoop bmapA copyOk n (tot + m) (off + m) (blocks + 1)
      else (tot, blocks)
  else (tot, blocks)
termination_by n - tot
decreasing_by
  have hm : 0 < min (n - tot) (BSIZE - off % BSIZE) := by
    have h1 : off % BSIZE < BSIZE := Nat.mod_lt _ (by decide)
    omega
  omega

/-- Specification companion of `writeiLoop`: does the run break early
(block exhaustion or copy-in failure)? -/
def writeiError (bmapA : Nat → Nat) (copyOk : Nat → Bool) (n tot off : Nat) : Bool :=
  if tot < n then
    if bmapA (off / BSIZE) = 0 then true
    else
      let m := min (n - tot) (BSIZE - off % BSIZE)
      if copyOk off then writeiError bmapA copyOk n (tot + m) (off + m)
      else true
  else false
termination_by n - tot
decreasing_by
  have hm : 0 < min (n - tot) (BSIZE - off % BSIZE) := by
    have h1 : off % BSIZE < BSIZE := Nat.mod_lt _ (by decide)
    omega
  omega

/-- Observable outcome of `xv6fs_writei`: return value, the inode's
size afterwards, whether `xv6fs_iupdate` ran before returning, and
how many data blocks were written. -/
structure WriteiRes where
  ret : Int
  newSize : Nat
  iupdated : Bool
  blocksWritten : Nat
deriving Repr, DecidableEq

/-- `xv6fs_writei` of src/kernel/fs/xv6fs/defs.h.  In the C loop
`off` advances together with `tot`, so after the loop
`off = off₀ + tot`; the final `if(off > ino->size) ino->size = off`
and the unconditional `xv6fs_iupdate` are embedded in the result. -/
def xv6fs_writei (size : Nat) (bmapA : Nat → Nat) (copyOk : Nat → Bool) (off n : Nat) :
    WriteiRes :=
  if off > size ∨ (off + n) % U32 < off then ⟨-1, size, false, 0⟩
  else if off + n > MAXFILE * BSIZE then ⟨-1, size, false, 0⟩
  else
    let r := writeiLoop bmapA copyOk n 0 off 0
    let endOff := off + r.1
    ⟨(r.1 : Int), if endOff > size then endOff else size, true, r.2⟩

/-! ## C3: `iput` (src/kernel/fs/fs.c lines 282-320) -/

/-- A vtable operation `iput` dispatches (recorded as an event). -/
inductive IAct where
  | trunc
  | writeInode
  | freeInode
  | releaseInode
deriving DecidableEq, Repr

/-- The fields of the in-memory inode that `iput` reads or writes:
`ref`, `nlink`, the type tag, and whether `private` is non-null. -/
structure IpState where
  ref : Int
  nlink : Int
  itype : Int
  priv : Bool
deriving DecidableEq, Repr

/-- `iput` of src/kernel/fs/fs.c.  The C function returns immediately
when `ip->private == 0`; otherwise it runs the truncate/free sequence
when `ref == 1 && nlink == 0`, the write-back/release sequence when
`ref == 1 && nlink > 0`, and then decrements `ref`.  The vtable
operations appear in the trace; the xv6fs implementations of them do
not modify `ref` or `nlink`, so the state only records the mutations
`iput` itself performs (`ip->type = 0` and `ip->ref--`). -/
def iput (ip : IpState) : IpState × List IAct :=
  if ip.priv = false then (ip, [])
  else
    let s1 :=
      if ip.ref = 1 ∧ ip.nlink = 0 then
        ({ ip with itype := 0 }, [IAct.trunc, IAct.writeInode, IAct.freeInode])
      else (ip, [])
    let s2 :=
      if s1.1.ref = 1 ∧ s1.1.nlink > 0 then
        (s1.1, s1.2 ++ [IAct.writeInode, IAct.releaseInode])
      else s1
    ({ s2.1 with ref := s2.1.ref - 1 }, s2.2)

/-! ## C4: `fileread` (src/kernel/fs/file.c lines 86-124) -/

/-- The fields of an open file that `fileread` consults: the
readable flag, the current offset, and the inode's type tag. -/
structure FRFile where
  readable : Bool
  off : Int
  itype : Int
deriving DecidableEq, Repr

/-- Observable outcome of `fileread`: return value and the file
offset afterwards. -/
structure FRRes where
  ret : Int
  off : Int
deriving DecidableEq, Repr

/-- `fileread` of src/kernel/fs/file.c.  `devswRead i` is the result
of `devsw[i].read(1, addr, n)`; `vread off n` the result of the
inode vtable `read` at offset `off`; `major` is the file's
FS-private major device number (which the code never consults: the
device branch reads `devsw[CONSOLE]`). -/
def fileread (devswRead : Nat → Int) (vread : Int → Int → Int) (major : Nat)
    (f : FRFile) (n : Int) : FRRes :=
  if f.readable = false then ⟨-1, f.off⟩
  else if f.itype = FD_DEVICE then ⟨devswRead CONSOLE, f.off⟩
  else
    let r := vread f.off n
    ⟨r, if r > 0 then f.off + r else f.off⟩

/-! ## C5: `iget` (src/kernel/fs/fs.c lines 172-208) -/

/-- An on-disk inode (`struct dinode`) as the loading code reads it. -/
structure DInode where
  dtype : Int
  dmajor : Int
  dminor : Int
  dnlink : Int
  dsize : Nat
deriving DecidableEq, Repr, Inhabited

/-- One entry of the in-memory inode table.  `priv` is whether
`private` is non-null; `itype`, `nlink`, `size`, `major`, `minor`
are the metadata fields (the loading code writes the VFS-visible
copies and the FS-private copies together, so they are merged
here). -/
structure Slot where
  ref : Nat
  dev : Nat
  inum : Nat
  priv : Bool
  itype : Int
  nlink : Int
  size : Nat
  major : Int
  minor : Int
deriving DecidableEq, Repr, Inhabited

/-- Does this slot hold `(dev, inum)` with a live reference?  (The
hit test of the `iget` scan.) -/
def slotMatches (dev inum : Nat) (s : Slot) : Prop :=
  s.ref > 0 ∧ s.dev = dev ∧ s.inum = inum

instance (dev inum : Nat) (s : Slot) : Decidable (slotMatches dev inum s) := by
  unfold slotMatches
  infer_instance

/-- The scan loop of `iget`: walk the table remembering the first
free slot seen; stop at the first slot holding `(dev, inum)` with
`ref > 0`.  `some (true, i)` is a hit at index `i`; `some (false, e)`
is no hit with `e` the remembered free slot; `none` is no hit and no
free slot (the C code panics there). -/
def igetScan (dev inum : Nat) : List Slot → Nat → Option Nat → Option (Bool × Nat)
  | [], _, empty =>
    match empty with
    | some e => some (false, e)
    | none => none
  | s :: rest, idx, empty =>
    if slotMatches dev inum s then some (true, idx)
    else igetScan dev inum rest (idx + 1)
      (if empty = none ∧ s.ref = 0 then some idx else empty)

/-- `ip->ref++` on a hit. -/
def incSlot (s : Slot) : Slot := { s with ref := s.ref + 1 }

/-- Claiming a free slot: `iget` sets `dev`, `inum`, `ref = 1` and
`private = 0`, and leaves the remaining fields as they were. -/
def freshSlot (dev inum : Nat) (s : Slot) : Slot :=
  { s with dev := dev, inum := inum, ref := 1, priv := false }

/-- `iget` of src/kernel/fs/fs.c over a table of slots.  `disk` is
the on-disk inode array; it is in scope in the C file and `iget`
never reads it.  `none` models the `panic("iget: no inodes")`
exit. -/
def iget (disk : Nat × Nat → DInode) (t : List Slot) (dev inum : Nat) :
    Option (Nat × List Slot) :=
  match igetScan dev inum t 0 none with
  | some (true, i) => some (i, t.set i (incSlot (t.getD i default)))
  | some (false, j) => some (j, t.set j (freshSlot dev inum (t.getD j default)))
  | none => none

/-- Specification helper: index of the first slot satisfying `p`. -/
def firstIdx (p : Slot → Bool) : List Slot → Option Nat
  | [] => none
  | s :: rest => if p s then some 0 else (firstIdx p rest).map (· + 1)

/-- The inode-table invariant of the spec: at most one slot with a
live reference holds `(dev, inum)`. -/
def atMostOne (t : List Slot) (dev inum : Nat) : Prop :=
  ∀ i, i < t.length → ∀ j, j < t.length →
    slotMatches dev inum (t.getD i default) →
    slotMatches dev inum (t.getD j default) → i = j

/-! ## C9: `xv6fs_geti`, `xv6fs_update_lock`
(src/kernel/fs/xv6fs/defs.h lines 728-793) -/

/-- The disk load both functions perform: allocate the private
payload, read the on-disk inode, copy its fields into the private
payload and the VFS-visible fields, set `dev`, and set `ref = 1`. -/
def loadSlot (d : DInode) (dev : Nat) (s : Slot) : Slot :=
  { s with priv := true, itype := d.dtype, major := d.dmajor, minor := d.dminor,
           nlink := d.dnlink, size := d.dsize, dev := dev, ref := 1 }

/-- `xv6fs_geti` of src/kernel/fs/xv6fs/defs.h: call `iget`, undo
the `ref` increment when `inc_ref` is 0, and on first attachment
(`private == 0`) load the inode from disk, setting `ref = 1`. -/
def xv6fs_geti (disk : Nat × Nat → DInode) (t : List Slot) (dev inum : Nat)
    (inc_ref : Bool) : Option (Nat × List Slot) :=
  match iget disk t dev inum with
  | none => none
  | some (i, t1) =>
    let s := t1.getD i default
    let s1 := if inc_ref then s else { s with ref := s.ref - 1 }
    let s2 := if s1.priv = false then loadSlot (disk (dev, inum)) dev s1 else s1
    some (i, t1.set i s2)

/-- `xv6fs_update_lock` of src/kernel/fs/xv6fs/defs.h: called from
`ilock`; unconditionally allocates a fresh private payload, loads
the on-disk inode at `(dev, inum)`, and sets `ref = 1`. -/
def xv6fs_update_lock (disk : Nat × Nat → DInode) (s : Slot) : Slot :=
  loadSlot (disk (s.dev, s.inum)) s.dev s

/-! ## C6: `sys_link` (src/kernel/fs/sysfile.c lines 139-201) -/

/-- Mutations `sys_link` performs on the old path's inode (recorded
as a trace): the `nlink` increment, the rollback decrement, the
`write_inode` calls, and the vtable `link` call. -/
inductive LAct where
  | incNlink
  | decNlink
  | writeInode
  | vlink
deriving DecidableEq, Repr

/-- The outcomes of the external steps `sys_link` takes and the
initial state of the target inode: whether both `argstr` calls
succeed, whether `namei(old)` finds an inode, that inode's type and
`nlink`, whether `nameiparent(new)` finds the parent, whether the
parent's device equals the target's, and the vtable `link`
result. -/
structure LinkEnv where
  argsOk : Bool
  nameiSome : Bool
  ipType : Int
  ipNlink : Int
  parentSome : Bool
  sameDev : Bool
  linkRet : Int
deriving DecidableEq, Repr

/-- `sys_link` of src/kernel/fs/sysfile.c: returns the syscall
result, the final `nlink` of the target inode, and the trace of
mutations on it.  The `ip->nlink++; write_inode` runs after the
`T_DIR` check; the `bad:` label performs `nlink--; write_inode`
before returning -1; the device test short-circuits before the
vtable `link` call. -/
def sys_link (e : LinkEnv) : Int × Int × List LAct :=
  if e.argsOk = false then (-1, e.ipNlink, [])
  else if e.nameiSome = false then (-1, e.ipNlink, [])
  else if e.ipType = T_DIR then (-1, e.ipNlink, [])
  else if e.parentSome = false then
    (-1, e.ipNlink + 1 - 1, [LAct.incNlink, LAct.writeInode, LAct.decNlink, LAct.writeInode])
  else if e.sameDev = false then
    (-1, e.ipNlink + 1 - 1, [LAct.incNlink, LAct.writeInode, LAct.decNlink, LAct.writeInode])
  else if e.linkRet < 0 then
    (-1, e.ipNlink + 1 - 1,
      [LAct.incNlink, LAct.writeInode, LAct.vlink, LAct.decNlink, LAct.writeInode])
  else (0, e.ipNlink + 1, [LAct.incNlink, LAct.writeInode, LAct.vlink])

/-! ## C7: `skipelem` (src/kernel/fs/fs.c lines 376-405) -/

/-- The `while(*path == '/') path++` loops of `skipelem`. -/
def dropSlashes : List Char → List Char
  | [] => []
  | c :: cs => if c = '/' then dropSlashes cs else c :: cs

/-- The `while(*path != '/' && *path != 0) path++` scan of
`skipelem`: the element and the remainder starting at the
terminating slash (or the end). -/
def elemSpan : List Char → List Char × List Char
  | [] => ([], [])
  | c :: cs =>
    if c = '/' then ([], c :: cs)
    else
      let p := elemSpan cs
      (c :: p.1, p.2)

/-- `skipelem` of src/kernel/fs/fs.c.  `none` when no element
remains; otherwise the remaining path (trailing slashes skipped),
the bytes written into `name`, and whether a null terminator was
written (the C code copies exactly `DIRSIZ` bytes with no
terminator when the element is `DIRSIZ` bytes or longer). -/
def skipelem (path : List Char) : Option (List Char × List Char × Bool) :=
  match dropSlashes path with
  | [] => none
  | p =>
    let e := elemSpan p
    let nm := if e.1.length ≥ DIRSIZ then (e.1.take DIRSIZ, false) else (e.1, true)
    some (dropSlashes e.2, nm.1, nm.2)

/-! ## C8: `namex` / `namei` (src/kernel/fs/fs.c lines 411-461) -/

/-- The file-system view that path resolution reads: the type tag of
each inode (keyed by `(dev, inum)`) and the directory lookup
(`dirlookup` through the vtable), keyed by the directory's
`(dev, inum)` and the `DIRSIZ`-truncated name `skipelem` wrote.
The view is fixed during resolution (no intervening mutation). -/
structure FsView where
  typeOf : Nat × Nat → Int
  lookup : Nat × Nat → List Char → Option (Nat × Nat)

/-- `namex` of src/kernel/fs/fs.c at the `(dev, inum)` level: each
iteration takes the next path element, requires the current inode to
be a directory, stops one level early for `nameiparent`, and
descends through `dirlookup`.  Reference counting (`iget`, `idup`,
`iput`) does not affect which `(dev, inum)` is returned: `iget`
returns a slot holding exactly the requested pair. -/
def namex (fs : FsView) (wantParent : Bool) (path : List Char) (ip : Nat × Nat) :
    Option (Nat × Nat) :=
  match h : skipelem path with
  | none => if wantParent then none else some ip
  | some (rest, name, _) =>
    if fs.typeOf ip ≠ T_DIR then none
    else if wantParent ∧ rest = [] then some ip
    else
      match fs.lookup ip name with
      | none => none
      | some next => namex fs wantParent rest next
termination_by path.length
decreasing_by
  have hd : ∀ l : List Char, (dropSlashes l).length ≤ l.length := by
    intro l
    induction l with
    | nil => simp [dropSlashes]
    | cons c cs ih =>
      rw [dropSlashes]
      by_cases hc : c = '/'
      · simp only [hc, if_true]
        simp
        omega
      · simp [hc]
  have he : ∀ l : List Char, (elemSpan l).2.length ≤ l.length := by
    intro l
    induction l with
    | nil => simp [elemSpan]
    | cons c cs ih =>
      rw [elemSpan]
      by_cases hc : c = '/'
      · simp [hc]
      · simp only [hc, Bool.false_eq_true, if_false]
        simp only [List.length_cons]
        omega
  rw [skipelem] at h
  rcases hds : dropSlashes path with _ | ⟨c, cs⟩
  · rw [hds] at h
    cases h
  · rw [hds] at h
    have hc : c ≠ '/' := by
      clear h he
      induction path with
      | nil => simp [dropSlashes] at hds
      | cons a as ih =>
        rw [dropSlashes] at hds
        by_cases ha : a = '/'
        · rw [if_pos ha] at hds
          exact ih hds
        · rw [if_neg ha] at hds
          injection hds with h1 h2
          rw [← h1]
          exact ha
    simp only [Option.some.injEq, Prod.mk.injEq] at h
    have hrest : rest = dropSlashes (elemSpan (c :: cs)).2 := h.1.symm
    have h1 : (elemSpan (c :: cs)).2.length < (c :: cs).length := by
      rw [elemSpan]
      simp only [hc, Bool.false_eq_true, if_false]
      simp only [List.length_cons]
      have := he cs
      omega
    have h2 : (c :: cs).length ≤ path.length := by
      rw [← hds]
      exact hd path
    have h3 : rest.length ≤ (elemSpan (c :: cs)).2.length := by
      rw [hrest]
      exact hd _
    omega

/-- `namei` of src/kernel/fs/fs.c: start at the root inode for
absolute paths, else at the current working directory, and resolve
the whole path (`wantParent = false`). -/
def namei (fs : FsView) (cwd : Nat × Nat) (path : List Char) : Option (Nat × Nat) :=
  if path.head? = some '/' then namex fs false path (ROOTDEV, ROOTINO)
  else namex fs false path cwd

/-! ## C10: `xv6fs_unlink` (src/kernel/fs/xv6fs/defs.h lines 686-715) -/

/-- An on-disk directory entry: inode number and the `DIRSIZ`-byte
name field. -/
structure Xv6Dentry where
  inum : Nat
  name : List Char
deriving DecidableEq, Repr, Inhabited

/-- `strncmp` of the kernel's string library as the directory code
uses it: compare at most `n` bytes, stopping after a null byte or a
mismatch; 0 means equal.  Both buffers the directory code passes are
`DIRSIZ` bytes long, so the running-out cases are unreachable; they
return 0. -/
def strncmp : List Char → List Char → Nat → Int
  | _, _, 0 => 0
  | [], _, _ + 1 => 0
  | _, [], _ + 1 => 0
  | s :: ss, t :: ts, n + 1 =>
    if s.toNat ≠ 0 ∧ s = t then strncmp ss ts n
    else (s.toNat : Int) - (t.toNat : Int)

/-- The zeroed 16-byte entry (`memset(&de, 0, sizeof(de))`). -/
def zeroDentry : Xv6Dentry := ⟨0, List.replicate DIRSIZ (Char.ofNat 0)⟩

/-- The scan loop of `xv6fs_unlink`: every entry whose name equals
`d->name` under `xv6fs_namecmp` (= `strncmp` bounded by `DIRSIZ`) is
zeroed and written back.  Reads and writes panic on failure in the C
code, so the model assumes they succeed (the claim's hypothesis). -/
def unlinkScan (name : List Char) : List Xv6Dentry → List Xv6Dentry
  | [] => []
  | de :: rest =>
    (if strncmp name de.name DIRSIZ = 0 then zeroDentry else de) :: unlinkScan name rest

/-- `xv6fs_unlink` of src/kernel/fs/xv6fs/defs.h: scans the whole
parent directory, zeroes every matching entry, and returns 0 — also
when no entry matched. -/
def xv6fs_unlink (name : List Char) (dir : List Xv6Dentry) : Int × List Xv6Dentry :=
  (0, unlinkScan name dir)

/-! ## Theorems -/

theorem readiLoop_spec (bmapA : Nat → Nat) (copyOk : Nat → Bool) :
    ∀ k n tot off, n - tot ≤ k →
      (readiCopyFailed bmapA copyOk n tot off = true →
        readiLoop bmapA copyOk n tot off = -1) ∧
      (readiCopyFailed bmapA copyOk n tot off = false →
        readiLoop bmapA copyOk n tot off = (readiCopied bmapA copyOk n tot off : Int)) := by
  intro k
  induction k with
  | zero =>
    intro n tot off h
    rw [readiLoop, readiCopyFailed, readiCopied]
    have : ¬ tot < n := by omega
    simp [this]
  | succ k ih =>
    intro n tot off h
    rw [readiLoop, readiCopyFailed, readiCopied]
    by_cases h1 : tot < n
    · simp only [h1, if_true]
      by_cases h2 : bmapA (off / BSIZE) = 0
      · simp [h2]
      · simp only [h2, if_false]
        by_cases h3 : copyOk off
        · simp only [h3, if_true]
          have hm : 0 < min (n - tot) (BSIZE - off % BSIZE) := by
            have := Nat.mod_lt off (show 0 < BSIZE by decide)
            omega
          exact ih n (tot + min (n - tot) (BSIZE - off % BSIZE)) (off + min (n - tot) (BSIZE - off % BSIZE)) (by omega)
        · simp [h3]
    · simp [h1]

/-- C1: with the sleep-lock held (the model is the single-thread view
of the locked inode), `xv6fs_readi` returns 0 when `off > size` or
when `off + n` wraps around the 32-bit range; when `off + n > size`
it behaves as the same call with `n` clamped to `size - off`; in the
accepted case it returns -1 exactly when the external copy primitive
fails during the run, and otherwise returns the number of bytes the
run actually delivered. -/
theorem readi_meets_spec (size off n : Nat) (bmapA : Nat → Nat) (copyOk : Nat → Bool)
    (hoff : off < U32) (hn : n < U32) (hsz : size < U32) :
    (off > size → xv6fs_readi size bmapA copyOk off n = 0) ∧
    (U32 ≤ off + n → xv6fs_readi size bmapA copyOk off n = 0) ∧
    (off ≤ size → off + n < U32 → size < off + n →
      xv6fs_readi size bmapA copyOk off n = xv6fs_readi size bmapA copyOk off (size - off)) ∧
    (off ≤ size → off + n < U32 →
      ∀ n2, n2 = (if off + n > size then size - off else n) →
        (readiCopyFailed bmapA copyOk n2 0 off = true →
          xv6fs_readi size bmapA copyOk off n = -1) ∧
        (readiCopyFailed bmapA copyOk n2 0 off = false →
          xv6fs_readi size bmapA copyOk off n = (readiCopied bmapA copyOk n2 0 off : Int))) := by
  refine ⟨?_, ?_, ?_, ?_⟩
  · intro h
    rw [xv6fs_readi]
    simp [h]
  · intro h
    rw [xv6fs_readi]
    have : (off + n) % U32 < off := by
      simp only [U32] at *
      omega
    simp [this]
  · intro h1 h2 h3
    rw [xv6fs_readi, xv6fs_readi]
    have hm1 : (off + n) % U32 = off + n := Nat.mod_eq_of_lt h2
    have hm2 : (off + (size - off)) % U32 = off + (size - off) := by
      have : off + (size - off) = size := by omega
      rw [this]
      exact Nat.mod_eq_of_lt hsz
    have g1 : ¬ (off > size ∨ (off + n) % U32 < off) := by omega
    have g2 : ¬ (off > size ∨ (off + (size - off)) % U32 < off) := by omega
    simp only [g1, if_false, g2]
    have e1 : (off + n > size) = True := by simp; omega
    have e2 : (off + (size - off) > size) = False := by simp; omega
    simp [e1, e2]
  · intro h1 h2 n2 hn2
    have hm1 : (off + n) % U32 = off + n := Nat.mod_eq_of_lt h2
    have g1 : ¬ (off > size ∨ (off + n) % U32 < off) := by omega
    have hbase := readiLoop_spec bmapA copyOk (n2 - 0) n2 0 off (le_refl _)
    constructor
    · intro hf
      rw [xv6fs_readi]
      simp only [g1, if_false]
      rw [← hn2]
      exact hbase.1 hf
    · intro hf
      rw [xv6fs_readi]
      simp only [g1, if_false]
      rw [← hn2]
      exact hbase.2 hf

theorem writeiLoop_spec (bmapA : Nat → Nat) (copyOk : Nat → Bool) :
    ∀ k n tot off blocks, n - tot ≤ k → tot ≤ n →
      (writeiLoop bmapA copyOk n tot off blocks).1 ≤ n ∧
      ((writeiLoop bmapA copyOk n tot off blocks).1 < n ↔
        writeiError bmapA copyOk n tot off = true) := by
  intro k
  induction k with
  | zero =>
    intro n tot off blocks h htot
    have hnn : ¬ tot < n := by omega
    rw [writeiLoop, writeiError]
    simp [hnn, htot]
  | succ k ih =>
    intro n tot off blocks h htot
    rw [writeiLoop, writeiError]
    by_cases h1 : tot < n
    · simp only [h1, if_true]
      by_cases h2 : bmapA (off / BSIZE) = 0
      · simp [h2, h1, htot]
      · simp only [h2, if_false]
        by_cases h3 : copyOk off
        · simp only [h3, if_true]
          have hm : 0 < min (n - tot) (BSIZE - off % BSIZE) := by
            have := Nat.mod_lt off (show 0 < BSIZE by decide)
            omega
          have hmle : min (n - tot) (BSIZE - off % BSIZE) ≤ n - tot := Nat.min_le_left _ _
          exact ih n (tot + min (n - tot) (BSIZE - off % BSIZE))
            (off + min (n - tot) (BSIZE - off % BSIZE)) (blocks + 1) (by omega) (by omega)
        · simp [h3, h1, htot]
    · simp only [h1, if_false]
      simp [htot]

/-- C2: with the sleep-lock held, `xv6fs_writei` rejects the call
(returning -1, writing no block, not updating size and not calling
`xv6fs_iupdate`) when `off > size`, when `off + n` wraps around the
32-bit range, or when `off + n > MAXFILE*BSIZE`; on every accepted
call it returns the loop's byte count `tot`, sets the size to the
end offset `off + tot` exactly when that exceeds the old size,
always invokes `xv6fs_iupdate` before returning, and `tot` is
smaller than `n` exactly when the run hit block exhaustion or a
copy-in failure. -/
theorem writei_meets_spec (size off n : Nat) (bmapA : Nat → Nat) (copyOk : Nat → Bool)
    (hoff : off < U32) (hn : n < U32) (hsz : size < U32) :
    ((off > size ∨ U32 ≤ off + n ∨ off + n > MAXFILE * BSIZE) →
      xv6fs_writei size bmapA copyOk off n = ⟨-1, size, false, 0⟩) ∧
    (off ≤ size → off + n ≤ MAXFILE * BSIZE →
      ∀ tot blocks, writeiLoop bmapA copyOk n 0 off 0 = (tot, blocks) →
        xv6fs_writei size bmapA copyOk off n =
          ⟨(tot : Int), if off + tot > size then off + tot else size, true, blocks⟩ ∧
        tot ≤ n ∧
        (tot < n ↔ writeiError bmapA copyOk n 0 off = true)) := by
  constructor
  · intro h
    rw [xv6fs_writei]
    rcases h with h | h | h
    · simp [h]
    · have : (off + n) % U32 < off := by
        simp only [U32] at *
        omega
      simp [this]
    · by_cases hg : off > size ∨ (off + n) % U32 < off
      · simp [hg]
      · rw [if_neg hg, if_pos h]
  · intro h1 h2 tot blocks hloop
    have hmb : MAXFILE * BSIZE = 71680 := by
      norm_num [MAXFILE, NDIRECT, NINDIRECT, BSIZE]
    have hmod : (off + n) % U32 = off + n := Nat.mod_eq_of_lt (by simp only [U32]; omega)
    have g1 : ¬ (off > size ∨ (off + n) % U32 < off) := by omega
    have g2 : ¬ (off + n > MAXFILE * BSIZE) := by omega
    refine ⟨?_, ?_⟩
    · rw [xv6fs_writei, if_neg g1, if_neg g2]
      simp only [hloop]
    · have hbase := writeiLoop_spec bmapA copyOk (n - 0) n 0 off 0 (le_refl _) (Nat.zero_le n)
      rw [hloop] at hbase
      exact hbase

/-- Witness for C2 at a concrete input: into an empty inode, a
20-byte write at offset 0 with every block mapped and the copy-in
succeeding returns 20, extends the size to 20, runs `iupdate`, and
writes one block. -/
theorem writei_meets_spec_witness :
    xv6fs_writei 0 (fun _ => 7) (fun _ => true) 0 20 = ⟨20, 20, true, 1⟩ := by
  have hloop : writeiLoop (fun _ => 7) (fun _ => true) 20 0 0 0 = (20, 1) := by
    rw [writeiLoop]
    norm_num [BSIZE]
    rw [writeiLoop]
    norm_num
  have h := ((writei_meets_spec 0 0 20 (fun _ => 7) (fun _ => true)
      (by decide) (by decide) (by decide)).2 (le_refl 0)
      (by norm_num [MAXFILE, NDIRECT, NINDIRECT, BSIZE]) 20 1 hloop).1
  rw [h]
  norm_num

/-- Witness for C1 at a concrete input: size 600, offset 100,
request 1000 bytes: the request is clamped to 500 and, with every
block mapped and every copy succeeding, 500 bytes are delivered. -/
theorem readi_meets_spec_witness :
    xv6fs_readi 600 (fun _ => 5) (fun _ => true) 100 1000 = 500 := by
  have h := (readi_meets_spec 600 100 1000 (fun _ => 5) (fun _ => true)
      (by decide) (by decide) (by decide)).2.2.2 (by decide) (by decide) 500 (by norm_num)
  have hfail : readiCopyFailed (fun _ => 5) (fun _ => true) 500 0 100 = false := by
    rw [readiCopyFailed]
    norm_num [BSIZE]
    rw [readiCopyFailed]
    norm_num [BSIZE]
    rw [readiCopyFailed]
    norm_num
  have hcop : readiCopied (fun _ => 5) (fun _ => true) 500 0 100 = 500 := by
    rw [readiCopied]
    norm_num [BSIZE]
    rw [readiCopied]
    norm_num [BSIZE]
    rw [readiCopied]
    norm_num
  rw [h.2 hfail, hcop]
  norm_num

/-- C3 (code bug): at the concrete inode state `ref = 1`, `nlink = 1`,
type `T_FILE`, `private` null, `iput` returns at once: it performs no
vtable operation and leaves `ref` at 1, contradicting the claim (and
the code's own comment that `iput()` decrements `ref`) that the
reference count drops by one also when `private` is null. -/
theorem iput_null_private_no_decrement :
    (iput ⟨1, 1, 2, false⟩).1.ref = 1 ∧ (iput ⟨1, 1, 2, false⟩).2 = [] := by
  decide

/-- C4 (counterexample to the claim as stated): a device file whose
major number is 2 is read through `devsw[CONSOLE]`, not through the
`devsw` entry indexed by the major number: with `devsw[2]` returning
42 and every other entry returning 7, `fileread` returns 7. -/
theorem fileread_ignores_major :
    (fileread (fun i => if i = 2 then 42 else 7) (fun _ _ => 0) 2
      ⟨true, 0, 3⟩ 5).ret ≠ (fun i : Nat => if i = 2 then (42 : Int) else 7) 2 := by
  decide

/-- C4 (amended): `fileread` returns -1 when the file is not
readable; when the inode's type tag equals `FD_DEVICE` it dispatches
to the `devsw` entry of `CONSOLE` regardless of the file's major
number and leaves the offset alone; otherwise it calls the inode
vtable read at offset `f.off`, advances the offset by the returned
count exactly when that count is positive, and returns the vtable's
result. -/
theorem fileread_meets_amended_spec (devswRead : Nat → Int) (vread : Int → Int → Int)
    (major : Nat) (f : FRFile) (n : Int) :
    (f.readable = false → fileread devswRead vread major f n = ⟨-1, f.off⟩) ∧
    (f.readable = true → f.itype = FD_DEVICE →
      fileread devswRead vread major f n = ⟨devswRead CONSOLE, f.off⟩) ∧
    (f.readable = true → f.itype ≠ FD_DEVICE →
      fileread devswRead vread major f n =
        ⟨vread f.off n, if vread f.off n > 0 then f.off + vread f.off n else f.off⟩) := by
  refine ⟨?_, ?_, ?_⟩ <;> intros <;> simp_all [fileread]

/-- Witness for the amended C4 at a concrete input: a readable
regular file at offset 10, with the vtable read returning 15,
returns 15 and advances the offset to 25. -/
theorem fileread_meets_amended_spec_witness :
    fileread (fun _ => 9) (fun o nn => o + nn) 0 ⟨true, 10, 2⟩ 5 = ⟨15, 25⟩ := by
  have h := (fileread_meets_amended_spec (fun _ => 9) (fun o nn => o + nn) 0
      ⟨true, 10, 2⟩ 5).2.2 rfl (by decide)
  rw [h]
  decide

theorem firstIdx_eq_some_iff (p : Slot → Bool) :
    ∀ (l : List Slot) (i : Nat),
      firstIdx p l = some i ↔
        (i < l.length ∧ p (l.getD i default) = true ∧
          ∀ k, k < i → p (l.getD k default) = false) := by
  intro l
  induction l with
  | nil => intro i; simp [firstIdx]
  | cons s rest ih =>
    intro i
    rw [firstIdx]
    by_cases hp : p s
    · simp only [hp, if_true]
      constructor
      · rintro h
        cases h
        refine ⟨by simp, by simpa using hp, ?_⟩
        intro k hk
        omega
      · rintro ⟨h1, h2, h3⟩
        cases i with
        | zero => rfl
        | succ i =>
          have h0 := h3 0 (by omega)
          simp only [List.getD_cons_zero] at h0
          rw [h0] at hp
          simp at hp
    · simp only [hp, Bool.false_eq_true, if_false]
      constructor
      · intro h
        rcases Option.map_eq_some'.mp h with ⟨j, hj, hji⟩
        subst hji
        rcases (ih j).mp hj with ⟨h1, h2, h3⟩
        refine ⟨by simpa using h1, by simpa using h2, ?_⟩
        intro k hk
        cases k with
        | zero => simpa using (eq_false_of_ne_true hp)
        | succ k =>
          simp only [List.getD_cons_succ]
          exact h3 k (by omega)
      · rintro ⟨h1, h2, h3⟩
        cases i with
        | zero =>
          simp only [List.getD_cons_zero] at h2
          exact absurd h2 hp
        | succ i =>
          have : firstIdx p rest = some i := by
            refine (ih i).mpr ⟨by simpa using h1, by simpa using h2, ?_⟩
            intro k hk
            have := h3 (k + 1) (by omega)
            simpa using this
          rw [this]
          rfl

theorem firstIdx_eq_none_iff (p : Slot → Bool) :
    ∀ (l : List Slot),
      firstIdx p l = none ↔ ∀ k, k < l.length → p (l.getD k default) = false := by
  intro l
  induction l with
  | nil => simp [firstIdx]
  | cons s rest ih =>
    rw [firstIdx]
    by_cases hp : p s
    · simp only [hp, if_true]
      constructor
      · intro h; cases h
      · intro h
        have := h 0 (by simp)
        simp only [List.getD_cons_zero] at this
        rw [this] at hp
        cases hp
    · simp only [hp, Bool.false_eq_true, if_false, Option.map_eq_none', ih]
      constructor
      · intro h k hk
        cases k with
        | zero => simpa using (eq_false_of_ne_true hp)
        | succ k =>
          simp only [List.getD_cons_succ]
          exact h k (by simpa using hk)
      · intro h k hk
        have := h (k + 1) (by simpa using hk)
        simpa using this

theorem getD_set_self :
    ∀ (t : List Slot) (i : Nat) (s : Slot), i < t.length →
      (t.set i s).getD i default = s := by
  intro t
  induction t with
  | nil => intro i s h; simp at h
  | cons a rest ih =>
    intro i s h
    cases i with
    | zero => rfl
    | succ i =>
      simp only [List.set_cons_succ, List.getD_cons_succ]
      exact ih i s (by simpa using h)

theorem getD_set_ne :
    ∀ (t : List Slot) (i j : Nat) (s : Slot), i ≠ j →
      (t.set i s).getD j default = t.getD j default := by
  intro t
  induction t with
  | nil => intro i j s h; simp [List.set]
  | cons a rest ih =>
    intro i j s h
    cases i with
    | zero =>
      cases j with
      | zero => exact absurd rfl h
      | succ j => rfl
    | succ i =>
      cases j with
      | zero => rfl
      | succ j =>
        simp only [List.set_cons_succ, List.getD_cons_succ]
        exact ih i j s (by omega)

theorem igetScan_eq (dev inum : Nat) (l : List Slot) :
    ∀ (idx : Nat) (empty : Option Nat),
      igetScan dev inum l idx empty =
        match firstIdx (fun s => decide (slotMatches dev inum s)) l with
        | some i => some (true, idx + i)
        | none =>
          match empty with
          | some e => some (false, e)
          | none =>
            match firstIdx (fun s => decide (s.ref = 0)) l with
            | some j => some (false, idx + j)
            | none => none := by
  induction l with
  | nil =>
    intro idx empty
    cases empty <;> simp [igetScan, firstIdx]
  | cons s rest ih =>
    intro idx empty
    rw [igetScan]
    by_cases hm : slotMatches dev inum s
    · simp only [hm, if_true, firstIdx, decide_eq_true_eq]
      simp [hm]
    · simp only [hm, if_false]
      have hms : (decide (slotMatches dev inum s)) = false := by
        simpa using hm
      cases hemp : empty with
      | some e =>
        rw [if_neg (by simp), ih]
        rw [firstIdx, hms]
        simp only [Bool.false_eq_true, if_false]
        cases hfm : firstIdx (fun s => decide (slotMatches dev inum s)) rest <;>
          simp [hfm] <;> omega
      | none =>
        by_cases hr : s.ref = 0
        · rw [if_pos ⟨rfl, hr⟩, ih]
          rw [firstIdx, hms]
          simp only [Bool.false_eq_true, if_false]
          cases hfm : firstIdx (fun s => decide (slotMatches dev inum s)) rest with
          | some i =>
            simp [hfm]
            omega
          | none =>
            simp only [hfm, Option.map_none']
            rw [firstIdx]
            have hd : (decide (s.ref = 0)) = true := by simpa using hr
            rw [hd]
            simp
        · rw [if_neg (by simp [hr]), ih]
          rw [firstIdx, hms]
          simp only [Bool.false_eq_true, if_false]
          cases hfm : firstIdx (fun s => decide (slotMatches dev inum s)) rest with
          | some i =>
            simp [hfm]
            omega
          | none =>
            simp only [hfm, Option.map_none']
            rw [firstIdx]
            have hd : (decide (s.ref = 0)) = false := by simpa using hr
            rw [hd]
            simp only [Bool.false_eq_true, if_false]
            cases hff : firstIdx (fun s => decide (s.ref = 0)) rest <;>
              simp [hff] <;> omega

/-- C5: over any inode table in which at most one live slot holds
`(dev, inum)`, `iget`: on a hit it returns that slot with its `ref`
incremented by one and every other slot unchanged; with no hit it
claims the first slot with `ref = 0`, initialising it to
`(dev, inum, ref = 1, private = null)`; it panics (`none`) exactly
when there is neither a hit nor a free slot; it never reads the
disk; and it preserves the uniqueness of every `(dev, inum)` pair
among live slots. -/
theorem iget_meets_spec (disk : Nat × Nat → DInode) (t : List Slot) (dev inum : Nat)
    (hu : atMostOne t dev inum) :
    (∀ i, i < t.length → slotMatches dev inum (t.getD i default) →
      iget disk t dev inum = some (i, t.set i (incSlot (t.getD i default)))) ∧
    ((∀ i, i < t.length → ¬ slotMatches dev inum (t.getD i default)) →
      ∀ j, j < t.length → (t.getD j default).ref = 0 →
        (∀ k, k < j → (t.getD k default).ref ≠ 0) →
        iget disk t dev inum = some (j, t.set j (freshSlot dev inum (t.getD j default)))) ∧
    (iget disk t dev inum = none ↔
      ((∀ i, i < t.length → ¬ slotMatches dev inum (t.getD i default)) ∧
       (∀ i, i < t.length → (t.getD i default).ref ≠ 0))) ∧
    (∀ disk2, iget disk2 t dev inum = iget disk t dev inum) ∧
    (∀ i t2, iget disk t dev inum = some (i, t2) →
      ∀ d2 i2, atMostOne t d2 i2 → atMostOne t2 d2 i2) := by
  have higet : iget disk t dev inum =
      match firstIdx (fun s => decide (slotMatches dev inum s)) t with
      | some i => some (i, t.set i (incSlot (t.getD i default)))
      | none =>
        match firstIdx (fun s => decide (s.ref = 0)) t with
        | some j => some (j, t.set j (freshSlot dev inum (t.getD j default)))
        | none => none := by
    rw [iget, igetScan_eq]
    cases hfm : firstIdx (fun s => decide (slotMatches dev inum s)) t with
    | some i => simp
    | none =>
      cases hff : firstIdx (fun s => decide (s.ref = 0)) t <;> simp
  refine ⟨?_, ?_, ?_, ?_, ?_⟩
  · intro i hi hmi
    have hfm : firstIdx (fun s => decide (slotMatches dev inum s)) t = some i := by
      cases hfm : firstIdx (fun s => decide (slotMatches dev inum s)) t with
      | none =>
        have := (firstIdx_eq_none_iff _ t).mp hfm i hi
        simp only [decide_eq_false_iff_not] at this
        exact absurd hmi this
      | some i2 =>
        rcases (firstIdx_eq_some_iff _ t i2).mp hfm with ⟨hl, hp, _⟩
        have hm2 : slotMatches dev inum (t.getD i2 default) := by simpa using hp
        have heq : i2 = i := hu i2 hl i hi hm2 hmi
        rw [heq]
    rw [higet, hfm]
  · intro hnone j hj hfree hmin
    have hfmn : firstIdx (fun s => decide (slotMatches dev inum s)) t = none :=
      (firstIdx_eq_none_iff _ t).mpr (fun k hk => by simpa using hnone k hk)
    have hffj : firstIdx (fun s => decide (s.ref = 0)) t = some j :=
      (firstIdx_eq_some_iff _ t j).mpr
        ⟨hj, by simpa using hfree, fun k hk => by simpa using hmin k hk⟩
    rw [higet, hfmn, hffj]
  · rw [higet]
    constructor
    · intro h
      cases hfm : firstIdx (fun s => decide (slotMatches dev inum s)) t with
      | some i => rw [hfm] at h; simp at h
      | none =>
        cases hff : firstIdx (fun s => decide (s.ref = 0)) t with
        | some j => rw [hfm, hff] at h; simp at h
        | none =>
          refine ⟨?_, ?_⟩
          · intro i hi
            have := (firstIdx_eq_none_iff _ t).mp hfm i hi
            simpa using this
          · intro i hi
            have := (firstIdx_eq_none_iff _ t).mp hff i hi
            simpa using this
    · rintro ⟨h1, h2⟩
      have hfm : firstIdx (fun s => decide (slotMatches dev inum s)) t = none :=
        (firstIdx_eq_none_iff _ t).mpr (fun k hk => by simpa using h1 k hk)
      have hff : firstIdx (fun s => decide (s.ref = 0)) t = none :=
        (firstIdx_eq_none_iff _ t).mpr (fun k hk => by simpa using h2 k hk)
      rw [hfm, hff]
  · intro disk2
    rfl
  · intro i t2 hres d2 i2 hu2
    rw [higet] at hres
    cases hfm : firstIdx (fun s => decide (slotMatches dev inum s)) t with
    | some i0 =>
      rw [hfm] at hres
      simp only [Option.some.injEq, Prod.mk.injEq] at hres
      rcases hres with ⟨-, ht2⟩
      rw [← ht2]
      rcases (firstIdx_eq_some_iff _ t i0).mp hfm with ⟨hl, hp, _⟩
      have hm0 : slotMatches dev inum (t.getD i0 default) := by simpa using hp
      have htrans : ∀ x, x < t.length →
          (slotMatches d2 i2 ((t.set i0 (incSlot (t.getD i0 default))).getD x default) ↔
            slotMatches d2 i2 (t.getD x default)) := by
        intro x hx
        by_cases hxi : x = i0
        · subst hxi
          rw [getD_set_self t x _ hx]
          have hr0 : (t.getD x default).ref > 0 := hm0.1
          unfold slotMatches incSlot
          simp only
          constructor
          · rintro ⟨_, h2, h3⟩
            exact ⟨hr0, h2, h3⟩
          · rintro ⟨_, h2, h3⟩
            exact ⟨by omega, h2, h3⟩
        · rw [getD_set_ne t i0 x _ (fun h => hxi h.symm)]
      intro a ha b hb hma hmb
      simp only [List.length_set] at ha hb
      exact hu2 a ha b hb ((htrans a ha).mp hma) ((htrans b hb).mp hmb)
    | none =>
      rw [hfm] at hres
      cases hff : firstIdx (fun s => decide (s.ref = 0)) t with
      | none => rw [hff] at hres; simp at hres
      | some j0 =>
        rw [hff] at hres
        simp only [Option.some.injEq, Prod.mk.injEq] at hres
        rcases hres with ⟨-, ht2⟩
        rw [← ht2]
        have hnomatch : ∀ x, x < t.length → ¬ slotMatches dev inum (t.getD x default) := by
          intro x hx
          have := (firstIdx_eq_none_iff _ t).mp hfm x hx
          simpa using this
        intro a ha b hb hma hmb
        simp only [List.length_set] at ha hb
        by_cases haj : a = j0
        · by_cases hbj : b = j0
          · rw [haj, hbj]
          · exfalso
            rw [haj, getD_set_self t j0 _ ((firstIdx_eq_some_iff _ t j0).mp hff).1] at hma
            rcases hma with ⟨-, hdev, hinum⟩
            simp only [freshSlot] at hdev hinum
            rw [getD_set_ne t j0 b _ (fun h => hbj h.symm)] at hmb
            apply hnomatch b hb
            rcases hmb with ⟨hr, hd, hn⟩
            exact ⟨hr, by rw [hd, ← hdev], by rw [hn, ← hinum]⟩
        · by_cases hbj : b = j0
          · exfalso
            rw [hbj, getD_set_self t j0 _ ((firstIdx_eq_some_iff _ t j0).mp hff).1] at hmb
            rcases hmb with ⟨-, hdev, hinum⟩
            simp only [freshSlot] at hdev hinum
            rw [getD_set_ne t j0 a _ (fun h => haj h.symm)] at hma
            apply hnomatch a ha
            rcases hma with ⟨hr, hd, hn⟩
            exact ⟨hr, by rw [hd, ← hdev], by rw [hn, ← hinum]⟩
          · rw [getD_set_ne t j0 a _ (fun h => haj h.symm)] at hma
            rw [getD_set_ne t j0 b _ (fun h => hbj h.symm)] at hmb
            exact hu2 a ha b hb hma hmb

/-- Witness for C5 at a concrete table: a hit on `(dev, inum) =
(1, 5)` in slot 0 (holding it with `ref = 2`) increments that
slot's `ref` to 3 and leaves the free slot untouched. -/
theorem iget_meets_spec_witness :
    iget (fun _ => default)
      [⟨2, 1, 5, true, 2, 1, 0, 0, 0⟩, ⟨0, 0, 0, false, 0, 0, 0, 0, 0⟩] 1 5 =
      some (0, [⟨3, 1, 5, true, 2, 1, 0, 0, 0⟩, ⟨0, 0, 0, false, 0, 0, 0, 0, 0⟩]) := by
  have h := (iget_meets_spec (fun _ => default)
      [⟨2, 1, 5, true, 2, 1, 0, 0, 0⟩, ⟨0, 0, 0, false, 0, 0, 0, 0, 0⟩] 1 5
      (by
        intro a ha b hb hma hmb
        simp only [List.length_cons, List.length_nil] at ha hb
        interval_cases a <;> interval_cases b <;> simp_all [slotMatches])).1
      0 (by decide) (by decide)
  rw [h]
  rfl

/-- C9: whenever `xv6fs_geti` operates on a table entry whose
`private` is null after the optional un-increment, it loads the
inode from disk and sets the entry's `ref` to exactly 1, regardless
of the reference count the entry held; and `xv6fs_update_lock`
always loads from disk and sets `ref` to exactly 1. -/
theorem geti_loads_and_forces_ref_one (disk : Nat × Nat → DInode) :
    (∀ (t : List Slot) (dev inum : Nat) (incr : Bool) (i : Nat) (t1 : List Slot),
      iget disk t dev inum = some (i, t1) →
      (t1.getD i default).priv = false →
      ∃ s2, xv6fs_geti disk t dev inum incr = some (i, t1.set i s2) ∧
        s2.ref = 1 ∧ s2.priv = true ∧
        s2.itype = (disk (dev, inum)).dtype ∧
        s2.nlink = (disk (dev, inum)).dnlink ∧
        s2.size = (disk (dev, inum)).dsize) ∧
    (∀ s : Slot,
      (xv6fs_update_lock disk s).ref = 1 ∧ (xv6fs_update_lock disk s).priv = true ∧
      (xv6fs_update_lock disk s).itype = (disk (s.dev, s.inum)).dtype ∧
      (xv6fs_update_lock disk s).nlink = (disk (s.dev, s.inum)).dnlink ∧
      (xv6fs_update_lock disk s).size = (disk (s.dev, s.inum)).dsize) := by
  constructor
  · intro t dev inum incr i t1 hres hpriv
    refine ⟨loadSlot (disk (dev, inum)) dev
      (if incr then t1.getD i default
       else { t1.getD i default with ref := (t1.getD i default).ref - 1 }),
      ?_, by simp [loadSlot], by simp [loadSlot], by simp [loadSlot],
      by simp [loadSlot], by simp [loadSlot]⟩
    rw [xv6fs_geti, hres]
    cases incr with
    | false =>
      simp only [List.getD_eq_getElem?_getD] at hpriv
      simp [hpriv]
    | true =>
      simp only [List.getD_eq_getElem?_getD] at hpriv
      simp [hpriv]
  · intro s
    refine ⟨?_, ?_, ?_, ?_, ?_⟩ <;> simp [xv6fs_update_lock, loadSlot]

/-- Witness for C9 at a concrete input: a slot holding `(1, 9)` with
`ref = 5` and null `private` is hit by `iget` (`ref` becomes 6), and
`xv6fs_geti` then loads disk inode `(1, 9)` and forces `ref` to 1. -/
theorem geti_loads_and_forces_ref_one_witness :
    ∃ s2,
      xv6fs_geti (fun _ => (⟨2, 0, 0, 7, 33⟩ : DInode))
          [⟨5, 1, 9, false, 0, 0, 0, 0, 0⟩] 1 9 true =
        some (0, ([⟨6, 1, 9, false, 0, 0, 0, 0, 0⟩] : List Slot).set 0 s2) ∧
      s2.ref = 1 ∧ s2.priv = true ∧
      s2.itype = ((fun _ => (⟨2, 0, 0, 7, 33⟩ : DInode)) ((1 : Nat), (9 : Nat))).dtype ∧
      s2.nlink = ((fun _ => (⟨2, 0, 0, 7, 33⟩ : DInode)) ((1 : Nat), (9 : Nat))).dnlink ∧
      s2.size = ((fun _ => (⟨2, 0, 0, 7, 33⟩ : DInode)) ((1 : Nat), (9 : Nat))).dsize :=
  (geti_loads_and_forces_ref_one (fun _ => (⟨2, 0, 0, 7, 33⟩ : DInode))).1
    [⟨5, 1, 9, false, 0, 0, 0, 0, 0⟩] 1 9 true 0 [⟨6, 1, 9, false, 0, 0, 0, 0, 0⟩]
    (by decide) (by decide)

/-- C6: whenever `sys_link` returns -1, the target inode's `nlink`
equals its value before the call, and whenever it returns -1 after
having incremented `nlink`, the trace ends with the rollback
`nlink--` followed by `write_inode`. -/
theorem sys_link_rolls_back (e : LinkEnv) :
    ((sys_link e).1 = -1 → (sys_link e).2.1 = e.ipNlink) ∧
    ((sys_link e).1 = -1 → LAct.incNlink ∈ (sys_link e).2.2 →
      ∃ pre, (sys_link e).2.2 = pre ++ [LAct.decNlink, LAct.writeInode]) := by
  rw [sys_link]
  split_ifs with h1 h2 h3 h4 h5 h6
  · exact ⟨fun _ => rfl, fun _ hmem => by simp at hmem⟩
  · exact ⟨fun _ => rfl, fun _ hmem => by simp at hmem⟩
  · exact ⟨fun _ => rfl, fun _ hmem => by simp at hmem⟩
  · refine ⟨fun _ => ?_, fun _ _ => ⟨[LAct.incNlink, LAct.writeInode], rfl⟩⟩
    show e.ipNlink + 1 - 1 = e.ipNlink
    omega
  · refine ⟨fun _ => ?_, fun _ _ => ⟨[LAct.incNlink, LAct.writeInode], rfl⟩⟩
    show e.ipNlink + 1 - 1 = e.ipNlink
    omega
  · refine ⟨fun _ => ?_,
      fun _ _ => ⟨[LAct.incNlink, LAct.writeInode, LAct.vlink], rfl⟩⟩
    show e.ipNlink + 1 - 1 = e.ipNlink
    omega
  · exact ⟨fun hret => absurd hret (by decide), fun hret _ => absurd hret (by decide)⟩

/-- Witness for C6 at a concrete input: with `namei(old)` finding a
regular file with `nlink = 1` and `nameiparent(new)` failing,
`sys_link` returns -1 and the final `nlink` is the original 1. -/
theorem sys_link_rolls_back_witness :
    (sys_link ⟨true, true, 2, 1, false, true, 0⟩).1 = -1 ∧
    (sys_link ⟨true, true, 2, 1, false, true, 0⟩).2.1 = 1 :=
  ⟨by decide, (sys_link_rolls_back ⟨true, true, 2, 1, false, true, 0⟩).1 (by decide)⟩

theorem dropSlashes_eq (l : List Char) :
    dropSlashes l = l.dropWhile (fun c => c = '/') := by
  induction l with
  | nil => rfl
  | cons c cs ih =>
    rw [dropSlashes, List.dropWhile_cons]
    by_cases hc : c = '/'
    · simp [hc, ih]
    · simp [hc]

theorem elemSpan_eq (l : List Char) :
    elemSpan l = (l.takeWhile (fun c => c ≠ '/'), l.dropWhile (fun c => c ≠ '/')) := by
  induction l with
  | nil => rfl
  | cons c cs ih =>
    rw [elemSpan, List.takeWhile_cons, List.dropWhile_cons]
    by_cases hc : c = '/'
    · simp [hc]
    · simp [hc, ih]

/-- C7: `skipelem` returns `none` exactly when the path holds no
further element (only slashes remain); otherwise it skips leading
slashes, writes the next element into `name` — truncated to exactly
`DIRSIZ` bytes with no null terminator when the element is `DIRSIZ`
bytes or longer, null-terminated otherwise — skips trailing
slashes, and returns the remaining path. -/
theorem skipelem_meets_spec (path : List Char) :
    (path.dropWhile (fun c => c = '/') = [] → skipelem path = none) ∧
    (path.dropWhile (fun c => c = '/') ≠ [] →
      skipelem path = some
        (((path.dropWhile (fun c => c = '/')).dropWhile (fun c => c ≠ '/')).dropWhile
            (fun c => c = '/'),
          ((path.dropWhile (fun c => c = '/')).takeWhile (fun c => c ≠ '/')).take DIRSIZ,
          decide
            (((path.dropWhile (fun c => c = '/')).takeWhile (fun c => c ≠ '/')).length <
              DIRSIZ))) := by
  constructor
  · intro h
    rw [skipelem, dropSlashes_eq, h]
  · intro h
    rw [skipelem, dropSlashes_eq]
    rcases hl : path.dropWhile (fun c => c = '/') with _ | ⟨c, cs⟩
    · exact absurd hl h
    · simp only [elemSpan_eq, dropSlashes_eq]
      split
      next hlen =>
        have hd : decide
            (((c :: cs).takeWhile (fun c => c ≠ '/')).length < DIRSIZ) = false := by
          simp only [decide_eq_false_iff_not]
          omega
        rw [hd]
      next hlen =>
        have htk : ((c :: cs).takeWhile (fun c => c ≠ '/')).take DIRSIZ =
            (c :: cs).takeWhile (fun c => c ≠ '/') :=
          List.take_of_length_le (by omega)
        have hd : decide
            (((c :: cs).takeWhile (fun c => c ≠ '/')).length < DIRSIZ) = true := by
          simp only [decide_eq_true_eq]
          omega
        rw [htk, hd]

/-- Witness for C7 at a concrete input: `skipelem "//ab/c"` returns
remainder `"c"` with `name = "ab"` null-terminated (the element is
shorter than `DIRSIZ`). -/
theorem skipelem_meets_spec_witness :
    skipelem ['/', '/', 'a', 'b', '/', 'c'] = some (['c'], ['a', 'b'], true) := by
  have h := (skipelem_meets_spec ['/', '/', 'a', 'b', '/', 'c']).2 (by decide)
  rw [h]
  rfl

/-- C8: path resolution is repeatable: when `namei` over a fixed
file-system view returns an inode, calling it again with the same
view (no intervening mutation) returns an inode with the same
`(dev, inum)`. -/
theorem namei_idempotent (fs : FsView) (cwd : Nat × Nat) (path : List Char) (r : Nat × Nat)
    (h : namei fs cwd path = some r) :
    ∃ r2, namei fs cwd path = some r2 ∧ r2.1 = r.1 ∧ r2.2 = r.2 :=
  ⟨r, h, rfl, rfl⟩

/-- Witness for C8 at a concrete view: root `(1, 1)` is a directory
whose entry `"a"` resolves to `(1, 2)`; `namei "/a"` returns it, and
resolving again yields the same `(dev, inum)`. -/
theorem namei_idempotent_witness :
    ∃ r2,
      namei
          ⟨fun p => if p = (1, 1) then T_DIR else T_FILE,
           fun p nm => if p = (1, 1) ∧ nm = ['a'] then some (1, 2) else none⟩
          (7, 7) ['/', 'a'] = some r2 ∧
      r2.1 = ((1, 2) : Nat × Nat).1 ∧ r2.2 = ((1, 2) : Nat × Nat).2 := by
  have heval : namei
      ⟨fun p => if p = (1, 1) then T_DIR else T_FILE,
       fun p nm => if p = (1, 1) ∧ nm = ['a'] then some (1, 2) else none⟩
      (7, 7) ['/', 'a'] = some (1, 2) := by
    rw [namei, if_pos (show (['/', 'a'] : List Char).head? = some '/' from rfl)]
    rw [namex.eq_def]
    split
    next hnone => exact absurd hnone (by decide)
    next rest name snd hsome =>
      have hs1 : skipelem ['/', 'a'] = some ([], ['a'], true) := by decide
      rw [hs1] at hsome
      simp only [Option.some.injEq, Prod.mk.injEq] at hsome
      obtain ⟨h1, h2, h3⟩ := hsome
      subst h1
      subst h2
      rw [if_neg (by decide)]
      rw [if_neg (by simp)]
      have hlk : (⟨fun p => if p = (1, 1) then T_DIR else T_FILE,
          fun p nm => if p = (1, 1) ∧ nm = ['a'] then some (1, 2) else none⟩ :
            FsView).lookup (ROOTDEV, ROOTINO) ['a'] = some (1, 2) := by decide
      rw [hlk]
      show namex _ false [] (1, 2) = some (1, 2)
      rw [namex.eq_def]
      split
      next h9 => rfl
      next rest2 name2 snd2 h9 =>
        rw [show skipelem ([] : List Char) = none from rfl] at h9
        cases h9
  exact namei_idempotent _ (7, 7) ['/', 'a'] (1, 2) heval

theorem unlinkScan_length (name : List Char) :
    ∀ dir : List Xv6Dentry, (unlinkScan name dir).length = dir.length := by
  intro dir
  induction dir with
  | nil => rfl
  | cons de rest ih => simp [unlinkScan, ih]

theorem unlinkScan_getD (name : List Char) :
    ∀ (dir : List Xv6Dentry) (k : Nat), k < dir.length →
      (unlinkScan name dir).getD k default =
        (if strncmp name ((dir.getD k default).name) DIRSIZ = 0 then zeroDentry
         else dir.getD k default) := by
  intro dir
  induction dir with
  | nil =>
    intro k hk
    simp at hk
  | cons de rest ih =>
    intro k hk
    cases k with
    | zero => simp [unlinkScan]
    | succ k =>
      rw [unlinkScan]
      simp only [List.getD_cons_succ]
      exact ih k (by simpa using hk)

/-- C10: for every parent directory whose entries are all readable
(reads in the model always succeed, the claim's hypothesis),
`xv6fs_unlink` returns 0 — also when no entry named `d->name`
exists — after zeroing every entry whose name matches `d->name`
under `strncmp` bounded by `DIRSIZ`, and it leaves every
non-matching entry unchanged; a missing name is never reported as
an error. -/
theorem unlink_meets_spec (name : List Char) (dir : List Xv6Dentry) :
    (xv6fs_unlink name dir).1 = 0 ∧
    (xv6fs_unlink name dir).2.length = dir.length ∧
    ∀ k, k < dir.length →
      (strncmp name (dir.getD k default).name DIRSIZ = 0 →
        (xv6fs_unlink name dir).2.getD k default = zeroDentry) ∧
      (strncmp name (dir.getD k default).name DIRSIZ ≠ 0 →
        (xv6fs_unlink name dir).2.getD k default = dir.getD k default) := by
  refine ⟨rfl, unlinkScan_length name dir, ?_⟩
  intro k hk
  constructor
  · intro hm
    show (unlinkScan name dir).getD k default = _
    rw [unlinkScan_getD name dir k hk, if_pos hm]
  · intro hm
    show (unlinkScan name dir).getD k default = _
    rw [unlinkScan_getD name dir k hk, if_neg hm]

/-- Witness for C10 at a concrete input: unlinking name `"a"` from a
directory holding only an entry named `"b"` returns 0 and leaves
that entry unchanged (absence of the name is not an error). -/
theorem unlink_meets_spec_witness :
    (xv6fs_unlink ('a' :: List.replicate 13 (Char.ofNat 0))
        [⟨3, 'b' :: List.replicate 13 (Char.ofNat 0)⟩]).1 = 0 ∧
    (xv6fs_unlink ('a' :: List.replicate 13 (Char.ofNat 0))
        [⟨3, 'b' :: List.replicate 13 (Char.ofNat 0)⟩]).2.getD 0 default =
      ([⟨3, 'b' :: List.replicate 13 (Char.ofNat 0)⟩] : List Xv6Dentry).getD 0 default :=
  ⟨(unlink_meets_spec ('a' :: List.replicate 13 (Char.ofNat 0))
      [⟨3, 'b' :: List.replicate 13 (Char.ofNat 0)⟩]).1,
   ((unlink_meets_spec ('a' :: List.replicate 13 (Char.ofNat 0))
      [⟨3, 'b' :: List.replicate 13 (Char.ofNat 0)⟩]).2.2 0 (by decide)).2 (by decide)⟩
